import Mathlib

/-!
A shallow embedding of the fontlet terminal application (`fontlet.go`).

Go strings are modelled as `List Char` (`GoStr`); Go's machine `int` as `Int`;
fallible operations (external process invocations, slicing panics) as
`Except`/`Option`.  External collaborators — the figlet binary, the bubbletea
widget library — are modelled as oracle function parameters, so every theorem
below quantifies over their behaviour.
-/

/-- Go strings, modelled as lists of characters. -/
abbrev GoStr := List Char

/-- ASCII lower-casing of a single character.  Models the effect of Go's
`strings.ToLower` character map on the code points relevant to the `.flf`
suffix test in `findFigletFonts` (no character outside `A`–`Z` lower-cases
to an ASCII letter or to `.`). -/
def asciiLower (c : Char) : Char :=
  match c with
  | 'A' => 'a' | 'B' => 'b' | 'C' => 'c' | 'D' => 'd' | 'E' => 'e' | 'F' => 'f'
  | 'G' => 'g' | 'H' => 'h' | 'I' => 'i' | 'J' => 'j' | 'K' => 'k' | 'L' => 'l'
  | 'M' => 'm' | 'N' => 'n' | 'O' => 'o' | 'P' => 'p' | 'Q' => 'q' | 'R' => 'r'
  | 'S' => 's' | 'T' => 't' | 'U' => 'u' | 'V' => 'v' | 'W' => 'w' | 'X' => 'x'
  | 'Y' => 'y' | 'Z' => 'z'
  | other => other

/-- Go `strings.ToLower` on a Go string. -/
def goToLower (s : GoStr) : GoStr := s.map asciiLower

/-- Models Go `unicode.IsSpace` on the characters that occur in practice:
ASCII whitespace plus the Latin-1 NEL and NBSP code points.  (Higher
Unicode space characters are elided; every property proved below is
insensitive to the exact character set.) -/
def isSpaceChar (c : Char) : Bool :=
  c == ' ' || c == '\t' || c == '\n' || c == Char.ofNat 11 || c == Char.ofNat 12 ||
    c == '\r' || c == Char.ofNat 133 || c == Char.ofNat 160

/-- Go `strings.TrimSpace`: drop leading and trailing whitespace. -/
def trimSpace (s : GoStr) : GoStr :=
  ((s.dropWhile isSpaceChar).reverse.dropWhile isSpaceChar).reverse

/-- `strings.TrimSpace(line) == ""`: the line is empty or whitespace-only. -/
def isBlankLine (l : GoStr) : Bool := (trimSpace l).isEmpty

/-- Go `strings.Split(s, "\n")`: split at every newline; the result always
has one more element than the number of newlines, and is never empty. -/
def splitNl : GoStr → List GoStr
  | [] => [[]]
  | c :: rest =>
    if c = '\n' then [] :: splitNl rest
    else
      match splitNl rest with
      | [] => [[c]]
      | p :: ps => (c :: p) :: ps

/-- Go `strings.Join(lines, "\n")`. -/
def joinNl : List GoStr → GoStr
  | [] => []
  | [l] => l
  | l :: ls => l ++ '\n' :: joinNl ls

/-- The trailing-blank-stripping loop of `truncateString`:
`for len(lines) > 0 && strings.TrimSpace(lines[len(lines)-1]) == "" { lines = lines[:len(lines)-1] }`. -/
def dropTrailingBlanks (ls : List GoStr) : List GoStr :=
  (ls.reverse.dropWhile (fun l => isBlankLine l)).reverse

/-- `truncateString` from fontlet.go.  `maxLines` is a Go `int`; when
`len(lines) > maxLines` the code evaluates `lines[:maxLines]`, which for a
negative `maxLines` is a slice-bounds panic — modelled as `none`. -/
def truncateString (s : GoStr) (maxLines : Int) : Option GoStr :=
  let lines := splitNl s
  if (lines.length : Int) > maxLines then
    if maxLines < 0 then none
    else some (joinNl (dropTrailingBlanks (lines.take maxLines.toNat)))
  else some (joinNl (dropTrailingBlanks lines))

/-- The `previewLines` constant (`= 11`) of fontlet.go. -/
def previewLines : Int := 11

/-- Number of lines of a rendered Go string: the empty string has no lines,
otherwise one more line than the number of newline characters (the length
of `strings.Split(s, "\n")`). -/
def countLines (s : GoStr) : Nat :=
  if s = [] then 0 else (splitNl s).length

/-- The list of lines `truncateString` keeps before stripping trailing
blanks: the first `maxLines` lines when there are more than that. -/
def linesTaken (s : GoStr) (maxLines : Int) : List GoStr :=
  let lines := splitNl s
  if (lines.length : Int) > maxLines then lines.take maxLines.toNat else lines

/-- Total wrapper for `truncateString` at a non-negative line budget, used by
`generatePreviews` at the constant `previewLines = 11` where the panic
branch is unreachable (see `truncateString_isSome_of_nonneg`). -/
def truncTotal (s : GoStr) : GoStr := (truncateString s previewLines).getD []

/-- A discovered font: name, path, and (once generated) its rendered preview
— `fontMetadata` from fontlet.go. -/
structure fontMetadata where
  Name : GoStr
  Path : GoStr
  PreviewRender : GoStr
deriving DecidableEq, Repr

/-- Go `filepath.Base` for the non-empty file paths produced by
`filepath.WalkDir`: the final path element, after the last `/`. -/
def baseName (p : GoStr) : GoStr :=
  (p.reverse.takeWhile (fun c => c != '/')).reverse

/-- Go `filepath.Ext` applied to a base name (which contains no path
separator): the suffix starting at the final dot, empty when there is no dot. -/
def filepathExt (name : GoStr) : GoStr :=
  if name.contains '.' then
    '.' :: (name.reverse.takeWhile (fun c => c != '.')).reverse
  else []

/-- Go `strings.TrimSuffix`. -/
def trimSuffix (s sfx : GoStr) : GoStr :=
  if sfx.isSuffixOf s then s.take (s.length - sfx.length) else s

/-- Go `strings.HasSuffix`. -/
def hasSuffixGo (s sfx : GoStr) : Bool := sfx.isSuffixOf s

/-- The `WalkDir` filter in `findFigletFonts`:
`!d.IsDir() && strings.HasSuffix(strings.ToLower(d.Name()), ".flf")`
(directory entries fail the first conjunct, so the model's input is the list
of regular files under the font directory). -/
def isFontFile (p : GoStr) : Bool := hasSuffixGo (goToLower (baseName p)) ".flf".toList

/-- `filepath.WalkDir` visits directory entries in lexical order, so the
sequence of file paths it yields depends only on the set of files, not on
the order the filesystem returns them; it is modelled as sorting the
discovered paths lexicographically. -/
def walkDirOrder (files : List GoStr) : List GoStr :=
  List.insertionSort (fun p q : GoStr => p ≤ q) files

/-- The ordering used by
`sort.Slice(fonts, func(i, j int) bool { return fonts[i].Name < fonts[j].Name })`:
ascending by font name (Go's byte-wise comparison of UTF-8 strings, which
coincides with code-point lexicographic order). -/
def nameLe (a b : fontMetadata) : Prop := a.Name ≤ b.Name

instance : DecidableRel nameLe := fun a b => inferInstanceAs (Decidable (a.Name ≤ b.Name))

instance : IsTotal fontMetadata nameLe := ⟨fun a b => le_total a.Name b.Name⟩

instance : IsTrans fontMetadata nameLe := ⟨fun _ _ _ h1 h2 => le_trans h1 h2⟩

/-- `findFigletFonts` from fontlet.go, given the regular files under the
probed font directory (the directory probing itself shells out to the figlet
binary and is an external collaborator, outside this model).  It filters for
a case-insensitive `.flf` suffix of the base name, errors when nothing
matches, strips `filepath.Ext` from the base name to form each font's name,
and sorts the entries by name. -/
def findFigletFonts (files : List GoStr) : Except GoStr (List fontMetadata) :=
  let fontPaths := (walkDirOrder files).filter isFontFile
  if fontPaths.isEmpty then
    .error ("no .flf font files found".toList)
  else
    let fonts := fontPaths.map (fun p =>
      let nameWithExt := baseName p
      let name := trimSuffix nameWithExt (filepathExt nameWithExt)
      ({ Name := name, Path := p, PreviewRender := []} : fontMetadata))
    .ok (List.insertionSort nameLe fonts)

/-- The external figlet binary: an oracle from (command path, argv) to
either its standard output or an invocation error. -/
def ExecF := GoStr → List GoStr → Except GoStr GoStr

/-- Argument vector of the first `runFiglet` invocation:
`exec.Command(figletCmdPath, "-f", fontPath, "-w", fmt.Sprintf("%d", width), text)`. -/
def widthArgs (fontPath text : GoStr) (width : Int) : List GoStr :=
  ["-f".toList, fontPath, "-w".toList, (toString width).toList, text]

/-- Argument vector of the retry invocation:
`exec.Command(figletCmdPath, "-f", fontPath, text)`. -/
def noWidthArgs (fontPath text : GoStr) : List GoStr :=
  ["-f".toList, fontPath, text]

/-- The wrapped error
`fmt.Errorf("figlet failed (path: %s, text: %s, width: %d): %w", fontPath, text, width, err)`. -/
def figletFailErr (fontPath text : GoStr) (width : Int) (err : GoStr) : GoStr :=
  "figlet failed (path: ".toList ++ fontPath ++ ", text: ".toList ++ text ++
    ", width: ".toList ++ (toString width).toList ++ "): ".toList ++ err

/-- `runFiglet` from fontlet.go: invoke the tool with the `-w` width flag;
on error retry once without it; fail only if both invocations fail. -/
def runFiglet (exec : ExecF) (figletCmdPath fontPath text : GoStr) (width : Int) :
    Except GoStr GoStr :=
  match exec figletCmdPath (widthArgs fontPath text width) with
  | .ok output => .ok output
  | .error _ =>
    match exec figletCmdPath (noWidthArgs fontPath text) with
    | .ok output => .ok output
    | .error err => .error (figletFailErr fontPath text width err)

/-- The sequence of argument vectors `runFiglet` passes to the external tool,
in invocation order. -/
def runFigletCalls (exec : ExecF) (figletCmdPath fontPath text : GoStr) (width : Int) :
    List (List GoStr) :=
  match exec figletCmdPath (widthArgs fontPath text width) with
  | .ok _ => [widthArgs fontPath text width]
  | .error _ => [widthArgs fontPath text width, noWidthArgs fontPath text]

/-- The `appState` enumeration of fontlet.go. -/
inductive appState where
  | stateInitialLoading
  | stateInputText
  | stateLoadingPreviews
  | stateSelectFontWithPreview
  | stateGeneratingFullOutput
  | stateOutputChoice
  | stateSaveFileNameInput
  | stateDisplayFiglet
  | stateShowStatusMessage
  | stateError
deriving DecidableEq, Repr

/-- The message union delivered to `model.Update`.  Key messages carry the
key's canonical string form (`tea.KeyMsg.String()`; `msg.Type == tea.KeyEnter`
corresponds to the string `"enter"`). -/
inductive Msg where
  | windowSize (width height : Int)
  | spinnerTick
  | initialResourcesLoaded (fonts : List fontMetadata)
  | previewsGenerated (fontsWithPreviews : List fontMetadata)
  | fullFigletRendered (output : GoStr)
  | fileSaved (path : GoStr)
  | statusTimeout
  | errorEvent (err : GoStr)
  | key (k : String)
deriving DecidableEq, Repr

/-- Commands returned by `model.Update` to the bubbletea runtime.  Task
commands carry the snapshot of the inputs the Go closure captures;
`widgetCmd` stands for the opaque (possibly nil) command returned by a
widget's own `Update`. -/
inductive Cmd where
  | quit
  | spinnerTick
  | tick (seconds : Nat) (msg : Msg)
  | generatePreviews (fonts : List fontMetadata) (text : GoStr) (termWidth : Int)
  | renderFullFiglet (fontPath text : GoStr)
  | saveToFile (filename content : GoStr)
  | widgetCmd
deriving DecidableEq, Repr

/-- The `model` struct of fontlet.go.  Widget-internal state is reduced to
the fields the controller reads or writes: the text input's value and focus
flag, the font list's items and cursor index, and the viewport's content.
Style and geometry fields are elided (presentation only, spec §1). -/
structure Model where
  state : appState
  textInputValue : GoStr
  textInputFocused : Bool
  fontListItems : List fontMetadata
  fontListIndex : Nat
  viewportContent : GoStr
  fonts : List fontMetadata
  fullFigletOutput : GoStr
  inputText : GoStr
  selectedFontMeta : fontMetadata
  termWidth : Int
  termHeight : Int
  errorMessage : GoStr
  statusMessage : GoStr
  figletCmdPath : GoStr
deriving DecidableEq, Repr

/-- Oracle behaviour of the bubbletea widgets on the key messages the
controller forwards to them: `textinput.Model.Update` (new value) and
`list.Model.Update` (new cursor index). -/
structure Widgets where
  tiUpd : GoStr → String → GoStr
  listUpd : Nat → String → Nat

/-- The status-choice prompt `"Output to (t)erminal or save to (f)ile?"`. -/
def choicePrompt : GoStr := "Output to (t)erminal or save to (f)ile?".toList

/-- The save-confirmation status text `fmt.Sprintf("Saved to %s!", path)`
(lipgloss styling elided). -/
def savedPrompt (path : GoStr) : GoStr := "Saved to ".toList ++ path ++ "!".toList

/-- Go `strings.ToLower` applied to a key's string form. -/
def keyToLower (k : String) : String := String.mk (goToLower k.toList)

/-- `model.Update` from fontlet.go, as a pure function
`(widgets, model, msg) ↦ (next model, commands)`.  Each arm mirrors the
corresponding `case` of the Go switch; geometry recomputations in the
`WindowSizeMsg` arm are elided along with the geometry fields they set. -/
def update (w : Widgets) (m : Model) (msg : Msg) : Model × List Cmd :=
  match msg with
  | .windowSize width height =>
    ({ m with termWidth := width, termHeight := height }, [])
  | .spinnerTick =>
    if m.state = .stateInitialLoading ∨ m.state = .stateLoadingPreviews ∨
        m.state = .stateGeneratingFullOutput then
      (m, [Cmd.spinnerTick])
    else (m, [])
  | .initialResourcesLoaded fonts =>
    ({ m with fonts := fonts, state := .stateInputText, textInputFocused := true }, [])
  | .previewsGenerated fontsWithPreviews =>
    ({ m with fonts := fontsWithPreviews, fontListItems := fontsWithPreviews,
              fontListIndex := 0, state := .stateSelectFontWithPreview }, [])
  | .fullFigletRendered output =>
    ({ m with fullFigletOutput := output, state := .stateOutputChoice,
              statusMessage := choicePrompt }, [])
  | .fileSaved path =>
    ({ m with statusMessage := savedPrompt path, state := .stateShowStatusMessage },
      [Cmd.tick 2 Msg.statusTimeout])
  | .statusTimeout =>
    ({ m with statusMessage := [], state := .stateSelectFontWithPreview }, [])
  | .errorEvent err =>
    ({ m with errorMessage := err, state := .stateError }, [])
  | .key k =>
    if k = "ctrl+c" then (m, [Cmd.quit])
    else
      match m.state with
      | .stateInputText =>
        if k = "enter" then
          let t := trimSpace m.textInputValue
          let m1 := { m with inputText := t }
          if t ≠ [] then
            ({ m1 with state := .stateLoadingPreviews, textInputFocused := false },
              [Cmd.spinnerTick, Cmd.generatePreviews m1.fonts t m1.termWidth])
          else (m1, [])
        else
          ({ m with textInputValue := w.tiUpd m.textInputValue k }, [Cmd.widgetCmd])
      | .stateSelectFontWithPreview =>
        if k = "esc" then
          ({ m with state := .stateInputText, textInputValue := m.inputText,
                    textInputFocused := true }, [])
        else
          let sel :=
            if k = "enter" then
              match m.fontListItems.get? m.fontListIndex with
              | some selected =>
                ({ m with selectedFontMeta := selected,
                          state := .stateGeneratingFullOutput },
                  [Cmd.spinnerTick, Cmd.renderFullFiglet selected.Path m.inputText])
              | none => (m, ([] : List Cmd))
            else (m, ([] : List Cmd))
          ({ sel.1 with fontListIndex := w.listUpd m.fontListIndex k },
            sel.2 ++ [Cmd.widgetCmd])
      | .stateOutputChoice =>
        match keyToLower k with
        | "t" =>
          ({ m with viewportContent := m.fullFigletOutput,
                    state := .stateDisplayFiglet, statusMessage := [] }, [])
        | "f" =>
          ({ m with textInputValue := [], textInputFocused := true,
                    state := .stateSaveFileNameInput, statusMessage := [] }, [])
        | "esc" =>
          ({ m with state := .stateSelectFontWithPreview, statusMessage := [] }, [])
        | _ => (m, [])
      | .stateSaveFileNameInput =>
        if k = "enter" then
          let filename := trimSpace m.textInputValue
          if filename ≠ [] then
            ({ m with textInputFocused := false },
              [Cmd.saveToFile filename m.fullFigletOutput])
          else (m, [])
        else if k = "esc" then
          ({ m with state := .stateOutputChoice, statusMessage := choicePrompt,
                    textInputFocused := false }, [])
        else
          ({ m with textInputValue := w.tiUpd m.textInputValue k }, [Cmd.widgetCmd])
      | .stateDisplayFiglet =>
        let m1 :=
          if k = "esc" ∨ k = "q" then { m with state := .stateSelectFontWithPreview }
          else m
        (m1, [Cmd.widgetCmd])
      | .stateShowStatusMessage =>
        if k = "enter" ∨ k = "esc" then
          ({ m with statusMessage := [], state := .stateSelectFontWithPreview }, [])
        else (m, [])
      | .stateError =>
        if k = "q" ∨ k = "esc" ∨ k = "enter" then (m, [Cmd.quit])
        else (m, [])
      | _ => (m, [])

/-- Preview width computation in `generatePreviewsCmd`:
`previewRenderWidth := m.termWidth - 20`, floored at the minimum `20`. -/
def previewRenderWidthOf (termWidth : Int) : Int :=
  if termWidth - 20 < 20 then 20 else termWidth - 20

/-- The per-font error placeholder `fmt.Sprintf("Error rendering: %v", err)`. -/
def errorPlaceholder (err : GoStr) : GoStr := "Error rendering: ".toList ++ err

/-- `generatePreviewsCmd` from fontlet.go: render every font independently,
truncate each successful rendering to `previewLines` lines, replace a failed
rendering by the error placeholder, and resolve to a single
`previewsGenerated` message carrying one entry per input font. -/
def generatePreviews (exec : ExecF) (figletCmdPath : GoStr) (fonts : List fontMetadata)
    (inputText : GoStr) (termWidth : Int) : Msg :=
  let previewRenderWidth := previewRenderWidthOf termWidth
  let fontsWithPreviews := fonts.map (fun font =>
    match runFiglet exec figletCmdPath font.Path inputText previewRenderWidth with
    | .error err => { font with PreviewRender := errorPlaceholder err }
    | .ok output => { font with PreviewRender := truncTotal output })
  Msg.previewsGenerated fontsWithPreviews

/-- A concrete widget oracle used for concrete evaluations: the text input
and list cursor ignore the key. -/
def widgetsId : Widgets := ⟨fun v _ => v, fun i _ => i⟩

/-- A concrete font entry (no preview yet). -/
def font1 : fontMetadata := ⟨"alpha".toList, "/f/alpha.flf".toList, []⟩

/-- A concrete font entry carrying a preview. -/
def font2 : fontMetadata := ⟨"beta".toList, "/f/beta.flf".toList, "BETA".toList⟩

/-- A concrete session sitting in the text-input screen. -/
def baseModel : Model where
  state := .stateInputText
  textInputValue := []
  textInputFocused := true
  fontListItems := []
  fontListIndex := 0
  viewportContent := []
  fonts := [font1]
  fullFigletOutput := []
  inputText := []
  selectedFontMeta := font1
  termWidth := 100
  termHeight := 40
  errorMessage := []
  statusMessage := []
  figletCmdPath := "/usr/bin/figlet".toList

/-- A concrete session in the Error state. -/
def errorModel : Model :=
  { baseModel with state := .stateError, errorMessage := "figlet exploded".toList }

/-- A concrete session in the StatusMessage state with a nonempty status. -/
def statusModel : Model :=
  { baseModel with
    state := .stateShowStatusMessage
    statusMessage := "Saved to out.txt!".toList }

/-- A concrete session in InputText whose entered text has surrounding
whitespace. -/
def inputModelFilled : Model := { baseModel with textInputValue := "  hi  ".toList }

/-- A concrete session in InputText whose entered text is whitespace-only. -/
def inputModelBlank : Model := { baseModel with textInputValue := "   ".toList }

/-- A concrete external tool that rejects exactly the invocations carrying
the width flag (five arguments) and succeeds otherwise. -/
def execWidthFails : ExecF := fun _ args =>
  if args.length = 5 then .error "width rejected".toList else .ok "ART".toList

/-- A concrete external tool that fails exactly on the font file `bad.flf`
(the font path is argument index 1 in both invocation shapes). -/
def execByPath : ExecF := fun _ args =>
  if args.get? 1 = some ("bad.flf".toList) then .error "boom".toList
  else .ok "OK\nART".toList

/-- A concrete font whose rendering succeeds under `execByPath`. -/
def fontGood : fontMetadata := ⟨"good".toList, "good.flf".toList, []⟩

/-- A concrete font whose rendering fails under `execByPath`. -/
def fontBad : fontMetadata := ⟨"bad".toList, "bad.flf".toList, []⟩

/-- The spec's example directory content: `alpha.flf`, `Zeta.FLF`,
`notafont.txt`. -/
def exampleFiles : List GoStr :=
  ["/f/alpha.flf".toList, "/f/Zeta.FLF".toList, "/f/notafont.txt".toList]

/-! Section: Properties of line splitting and joining -/

theorem splitNl_ne_nil (s : GoStr) : splitNl s ≠ [] := by
  cases s with
  | nil => simp [splitNl]
  | cons c rest =>
    simp only [splitNl]
    split
    · simp
    · split <;> simp

theorem splitNl_no_newline {s : GoStr} : ∀ l ∈ splitNl s, '\n' ∉ l := by
  induction s with
  | nil =>
    intro l hl
    simp [splitNl] at hl
    simp [hl]
  | cons c rest ih =>
    intro l hl
    simp only [splitNl] at hl
    split at hl
    case isTrue hc =>
      rcases List.mem_cons.mp hl with rfl | hl
      · simp
      · exact ih l hl
    case isFalse hc =>
      rcases hsp : splitNl rest with _ | ⟨p, ps⟩
      · rw [hsp] at hl
        simp at hl
        subst hl
        intro hmem
        simp at hmem
        exact hc hmem.symm
      · rw [hsp] at hl
        rcases List.mem_cons.mp hl with rfl | hl
        · intro hmem
          rcases List.mem_cons.mp hmem with h | h
          · exact hc h.symm
          · exact ih p (hsp ▸ List.mem_cons_self p ps) h
        · exact ih l (hsp ▸ List.mem_cons_of_mem p hl)

theorem splitNl_of_no_newline {s : GoStr} (h : '\n' ∉ s) : splitNl s = [s] := by
  induction s with
  | nil => rfl
  | cons c rest ih =>
    have hc : ¬(c = '\n') := fun hc => h (hc ▸ List.mem_cons_self c rest)
    have hr : '\n' ∉ rest := fun hm => h (List.mem_cons_of_mem c hm)
    simp only [splitNl, if_neg hc, ih hr]

theorem splitNl_cons_of_ne {c : Char} (hc : ¬(c = '\n')) {rest : GoStr}
    {p : GoStr} {ps : List GoStr} (h : splitNl rest = p :: ps) :
    splitNl (c :: rest) = (c :: p) :: ps := by
  simp only [splitNl, if_neg hc, h]

theorem splitNl_append_newline {l t : GoStr} (h : '\n' ∉ l) :
    splitNl (l ++ '\n' :: t) = l :: splitNl t := by
  induction l with
  | nil => simp [splitNl]
  | cons c cs ih =>
    have hc : ¬(c = '\n') := fun hc => h (hc ▸ List.mem_cons_self c cs)
    have hcs : '\n' ∉ cs := fun hm => h (List.mem_cons_of_mem c hm)
    rw [List.cons_append]
    exact splitNl_cons_of_ne hc (ih hcs)

theorem joinNl_splitNl (s : GoStr) : joinNl (splitNl s) = s := by
  induction s with
  | nil => rfl
  | cons c rest ih =>
    simp only [splitNl]
    split
    case isTrue hc =>
      subst hc
      rcases h : splitNl rest with _ | ⟨p, ps⟩
      · exact absurd h (splitNl_ne_nil rest)
      · rw [h] at ih
        show joinNl ([] :: p :: ps) = '\n' :: rest
        show [] ++ '\n' :: joinNl (p :: ps) = '\n' :: rest
        simp [ih]
    case isFalse hc =>
      rcases h : splitNl rest with _ | ⟨p, ps⟩
      · exact absurd h (splitNl_ne_nil rest)
      · rw [h] at ih
        cases ps with
        | nil =>
          show joinNl [c :: p] = c :: rest
          show c :: p = c :: rest
          rw [show p = rest from ih]
        | cons q qs =>
          show joinNl ((c :: p) :: q :: qs) = c :: rest
          show (c :: p) ++ '\n' :: joinNl (q :: qs) = c :: rest
          rw [List.cons_append]
          rw [show p ++ '\n' :: joinNl (q :: qs) = rest from ih]

theorem splitNl_joinNl {ls : List GoStr} (h1 : ls ≠ []) (h2 : ∀ l ∈ ls, '\n' ∉ l) :
    splitNl (joinNl ls) = ls := by
  induction ls with
  | nil => exact absurd rfl h1
  | cons l ls ih =>
    cases ls with
    | nil => exact splitNl_of_no_newline (h2 l (List.mem_cons_self l []))
    | cons l' ls' =>
      show splitNl (l ++ '\n' :: joinNl (l' :: ls')) = l :: l' :: ls'
      rw [splitNl_append_newline (h2 l (List.mem_cons_self l _))]
      rw [ih (by simp) (fun x hx => h2 x (List.mem_cons_of_mem l hx))]

theorem joinNl_cons_cons_ne_nil (a b : GoStr) (ls : List GoStr) :
    joinNl (a :: b :: ls) ≠ [] := by
  show a ++ '\n' :: joinNl (b :: ls) ≠ []
  simp

/-! Section: Properties of trailing-blank stripping -/

theorem dropTrailingBlanks_eq_rdropWhile (ls : List GoStr) :
    dropTrailingBlanks ls = List.rdropWhile (fun l => isBlankLine l) ls := rfl

theorem dropTrailingBlanks_sublist (ls : List GoStr) :
    (dropTrailingBlanks ls).Sublist ls := by
  rw [dropTrailingBlanks_eq_rdropWhile]
  have hp := List.rdropWhile_prefix (fun l => isBlankLine l) ls
  exact hp.sublist

theorem dropTrailingBlanks_length_le (ls : List GoStr) :
    (dropTrailingBlanks ls).length ≤ ls.length :=
  (dropTrailingBlanks_sublist ls).length_le

theorem dropTrailingBlanks_subset (ls : List GoStr) :
    ∀ x ∈ dropTrailingBlanks ls, x ∈ ls :=
  fun _ hx => (dropTrailingBlanks_sublist ls).subset hx

theorem dropTrailingBlanks_getLast?_not_blank {ls : List GoStr} {l : GoStr}
    (h : (dropTrailingBlanks ls).getLast? = some l) : isBlankLine l = false := by
  rw [dropTrailingBlanks_eq_rdropWhile] at h
  have hne : List.rdropWhile (fun x => isBlankLine x) ls ≠ [] := by
    intro hnil
    rw [hnil] at h
    simp at h
  have hlast := List.rdropWhile_last_not (fun x => isBlankLine x) ls hne
  rw [List.getLast?_eq_getLast _ hne] at h
  have : (List.rdropWhile (fun x => isBlankLine x) ls).getLast hne = l :=
    Option.some_injective _ h
  rw [this] at hlast
  simpa using hlast

theorem dropTrailingBlanks_idem (ls : List GoStr) :
    dropTrailingBlanks (dropTrailingBlanks ls) = dropTrailingBlanks ls := by
  rw [dropTrailingBlanks_eq_rdropWhile, dropTrailingBlanks_eq_rdropWhile]
  exact List.rdropWhile_idempotent _ _

/-! Section: Characterization of truncateString -/

theorem truncateString_eq {n : Int} (h : 0 ≤ n) (s : GoStr) :
    truncateString s n = some (joinNl (dropTrailingBlanks (linesTaken s n))) := by
  simp only [truncateString, linesTaken]
  split
  · rw [if_neg (not_lt.mpr h)]
  · rfl

theorem truncateString_isSome_of_nonneg {n : Int} (h : 0 ≤ n) (s : GoStr) :
    (truncateString s n).isSome := by
  rw [truncateString_eq h s]
  rfl

theorem linesTaken_length_le {n : Int} (h : 0 ≤ n) (s : GoStr) :
    ((linesTaken s n).length : Int) ≤ n := by
  simp only [linesTaken]
  split
  case isTrue hgt =>
    rw [List.length_take]
    have h1 : min n.toNat (splitNl s).length ≤ n.toNat := Nat.min_le_left _ _
    have h2 : ((min n.toNat (splitNl s).length : Nat) : Int) ≤ ((n.toNat : Nat) : Int) := by
      exact_mod_cast h1
    rw [Int.toNat_of_nonneg h] at h2
    exact h2
  case isFalse hle => exact not_lt.mp hle

theorem linesTaken_no_newline {s : GoStr} {n : Int} : ∀ l ∈ linesTaken s n, '\n' ∉ l := by
  intro l hl
  simp only [linesTaken] at hl
  split at hl
  · exact splitNl_no_newline l (List.take_subset _ _ hl)
  · exact splitNl_no_newline l hl

theorem countLines_joinNl_le {ls : List GoStr} (h : ∀ l ∈ ls, '\n' ∉ l) :
    countLines (joinNl ls) ≤ ls.length := by
  by_cases hnil : joinNl ls = []
  · simp [countLines, hnil]
  · have hls : ls ≠ [] := by
      rintro rfl
      exact hnil rfl
    rw [countLines, if_neg hnil, splitNl_joinNl hls h]

theorem truncateString_of_neg {n : Int} (h : n < 0) (s : GoStr) :
    truncateString s n = none := by
  have hlen : 1 ≤ (splitNl s).length := List.length_pos.mpr (splitNl_ne_nil s)
  have hgt : ((splitNl s).length : Int) > n := by
    have : (1 : Int) ≤ ((splitNl s).length : Int) := by exact_mod_cast hlen
    omega
  simp only [truncateString]
  rw [if_pos hgt, if_pos h]

theorem truncateString_joinNl_dtb {X : List GoStr} {n : Int} (h : 0 ≤ n)
    (hX : ∀ l ∈ X, '\n' ∉ l) (hlen : ((dropTrailingBlanks X).length : Int) ≤ n) :
    truncateString (joinNl (dropTrailingBlanks X)) n = some (joinNl (dropTrailingBlanks X)) := by
  by_cases hk : dropTrailingBlanks X = []
  · rw [hk]
    show truncateString (joinNl []) n = some (joinNl [])
    show truncateString [] n = some []
    rw [truncateString_eq h]
    by_cases hn : ((splitNl ([] : GoStr)).length : Int) > n
    · have : linesTaken ([] : GoStr) n = [] := by
        simp only [linesTaken]
        rw [if_pos hn]
        have hn0 : n.toNat = 0 := by
          have : ((splitNl ([] : GoStr)).length : Int) = 1 := by rfl
          omega
        rw [hn0]
        rfl
      rw [this]
      rfl
    · have : linesTaken ([] : GoStr) n = [[]] := by
        simp only [linesTaken]
        rw [if_neg hn]
        rfl
      rw [this]
      rfl
  · have hnoNl : ∀ l ∈ dropTrailingBlanks X, '\n' ∉ l :=
      fun l hl => hX l (dropTrailingBlanks_subset X l hl)
    have hsplit : splitNl (joinNl (dropTrailingBlanks X)) = dropTrailingBlanks X :=
      splitNl_joinNl hk hnoNl
    rw [truncateString_eq h]
    have hlt : linesTaken (joinNl (dropTrailingBlanks X)) n = dropTrailingBlanks X := by
      simp only [linesTaken, hsplit]
      rw [if_neg (not_lt.mpr hlen)]
    rw [hlt, dropTrailingBlanks_idem]

theorem truncateString_take_eq {n : Int} (h : 0 ≤ n) (s : GoStr) :
    truncateString s n = truncateString (joinNl ((splitNl s).take n.toNat)) n := by
  by_cases hgt : ((splitNl s).length : Int) > n
  · by_cases hn1 : 1 ≤ n
    · have hlen : n.toNat ≤ (splitNl s).length := by omega
      have htake_len : ((splitNl s).take n.toNat).length = n.toNat := by
        rw [List.length_take]
        exact Nat.min_eq_left hlen
      have htne : (splitNl s).take n.toNat ≠ [] := by
        intro hnil
        rw [hnil] at htake_len
        simp at htake_len
        omega
      have hnoNl : ∀ l ∈ (splitNl s).take n.toNat, '\n' ∉ l :=
        fun l hl => splitNl_no_newline l (List.take_subset _ _ hl)
      have hsplit : splitNl (joinNl ((splitNl s).take n.toNat)) = (splitNl s).take n.toNat :=
        splitNl_joinNl htne hnoNl
      rw [truncateString_eq h s, truncateString_eq h]
      have h1 : linesTaken s n = (splitNl s).take n.toNat := by
        simp only [linesTaken]
        rw [if_pos hgt]
      have h2 : linesTaken (joinNl ((splitNl s).take n.toNat)) n = (splitNl s).take n.toNat := by
        simp only [linesTaken, hsplit]
        rw [if_neg (by rw [htake_len]; omega)]
      rw [h1, h2]
    · have hn0 : n = 0 := by omega
      subst hn0
      rw [truncateString_eq le_rfl s, truncateString_eq le_rfl]
      have h1 : linesTaken s 0 = [] := by
        simp only [linesTaken]
        rw [if_pos hgt]
        rfl
      have h2 : linesTaken (joinNl ((splitNl s).take (0 : Int).toNat)) 0 = [] := by
        have hx : (splitNl s).take (0 : Int).toNat = [] := List.take_zero _
        rw [hx]
        show linesTaken [] 0 = []
        simp only [linesTaken]
        rw [if_pos (by simp [splitNl])]
        rfl
      rw [h1, h2]
  · have hle : (splitNl s).length ≤ n.toNat := by omega
    rw [List.take_of_length_le hle, joinNl_splitNl]

/-- Claim C5 (corrected): the claim quantifies over every `maxLines n`, but for a
negative `n` the Go code panics slicing `lines[:maxLines]` — see
`c5_truncate_counterexample`.  Amended to `0 ≤ n`: `truncateString` succeeds,
its output has at most `n` lines, the output has no trailing empty or
whitespace-only line (unless everything was stripped and the output is empty),
and trailing-blank stripping is applied to the truncated prefix — the lines
beyond the first `n` never influence the result. -/
theorem c5_truncate_amended (s : GoStr) (n : Int) (h : 0 ≤ n) :
    ∃ out, truncateString s n = some out
      ∧ (countLines out : Int) ≤ n
      ∧ (out = [] ∨ ∀ l, (splitNl out).getLast? = some l → isBlankLine l = false)
      ∧ truncateString s n = truncateString (joinNl ((splitNl s).take n.toNat)) n := by
  refine ⟨joinNl (dropTrailingBlanks (linesTaken s n)), truncateString_eq h s, ?_, ?_,
    truncateString_take_eq h s⟩
  · have h1 : countLines (joinNl (dropTrailingBlanks (linesTaken s n))) ≤
        (dropTrailingBlanks (linesTaken s n)).length :=
      countLines_joinNl_le (fun l hl => linesTaken_no_newline l (dropTrailingBlanks_subset _ l hl))
    have h2 : (dropTrailingBlanks (linesTaken s n)).length ≤ (linesTaken s n).length :=
      dropTrailingBlanks_length_le _
    have h3 := linesTaken_length_le h s
    omega
  · by_cases hout : joinNl (dropTrailingBlanks (linesTaken s n)) = []
    · exact Or.inl hout
    · refine Or.inr (fun l hl => ?_)
      have hk : dropTrailingBlanks (linesTaken s n) ≠ [] := by
        rintro hknil
        rw [hknil] at hout
        exact hout rfl
      have hnoNl : ∀ x ∈ dropTrailingBlanks (linesTaken s n), '\n' ∉ x :=
        fun x hx => linesTaken_no_newline x (dropTrailingBlanks_subset _ x hx)
      rw [splitNl_joinNl hk hnoNl] at hl
      exact dropTrailingBlanks_getLast?_not_blank hl

/-- Witness for C5 at the concrete input `s = "a\n \nb"`, `n = 2`: the blank
second line is stripped because stripping happens after truncation. -/
theorem c5_truncate_amended_witness :
    ∃ out, truncateString "a\n \nb".toList 2 = some out
      ∧ (countLines out : Int) ≤ 2
      ∧ (out = [] ∨ ∀ l, (splitNl out).getLast? = some l → isBlankLine l = false)
      ∧ truncateString "a\n \nb".toList 2 =
          truncateString (joinNl ((splitNl "a\n \nb".toList).take (2 : Int).toNat)) 2 :=
  c5_truncate_amended ("a\n \nb".toList) 2 (by decide)

/-- Claim C5 counterexample: the claim as stated says `truncate(s, n)` is total
(never fails) for every `maxLines n`; at `s = "x"`, `n = -1` the Go code
reaches `lines[:-1]`, a slice-bounds panic (modelled as `none`), so the claim
is false as stated. -/
theorem c5_truncate_counterexample : truncateString "x".toList (-1) = none := by
  decide

/-- Claim C6: truncation is idempotent — composing `truncateString` with itself
at the same line budget (through `Option.bind`, so that the panic case
composes as a panic) gives the same result as a single application, for every
string and every budget. -/
theorem c6_truncate_idem (s : GoStr) (n : Int) :
    (truncateString s n).bind (fun t => truncateString t n) = truncateString s n := by
  rcases lt_or_le n 0 with hneg | h
  · rw [truncateString_of_neg hneg s]
    rfl
  · rw [truncateString_eq h s]
    show truncateString (joinNl (dropTrailingBlanks (linesTaken s n))) n =
      some (joinNl (dropTrailingBlanks (linesTaken s n)))
    apply truncateString_joinNl_dtb h linesTaken_no_newline
    have h2 := dropTrailingBlanks_length_le (linesTaken s n)
    have h3 := linesTaken_length_le h s
    omega

/-- Claim C4: for every behaviour of the external tool and every font path,
text and width: when the width-flag invocation succeeds, `runFiglet`
returns its output and makes no second call; exactly when it fails,
`runFiglet` retries once with the width flag dropped; it surfaces failure
only when both invocations fail — in particular a tool that fails solely on
width-specified calls still yields success. -/
theorem c4_runFiglet_retry (exec : ExecF) (cmdPath fontPath text : GoStr) (width : Int) :
    (∀ o, exec cmdPath (widthArgs fontPath text width) = .ok o →
        runFiglet exec cmdPath fontPath text width = .ok o ∧
        runFigletCalls exec cmdPath fontPath text width = [widthArgs fontPath text width])
    ∧ (∀ e, exec cmdPath (widthArgs fontPath text width) = .error e →
        runFigletCalls exec cmdPath fontPath text width =
          [widthArgs fontPath text width, noWidthArgs fontPath text] ∧
        (∀ o, exec cmdPath (noWidthArgs fontPath text) = .ok o →
            runFiglet exec cmdPath fontPath text width = .ok o) ∧
        (∀ e2, exec cmdPath (noWidthArgs fontPath text) = .error e2 →
            runFiglet exec cmdPath fontPath text width =
              .error (figletFailErr fontPath text width e2)))
    ∧ ((∃ e, runFiglet exec cmdPath fontPath text width = .error e) ↔
        ((∃ e1, exec cmdPath (widthArgs fontPath text width) = .error e1) ∧
         (∃ e2, exec cmdPath (noWidthArgs fontPath text) = .error e2))) := by
  refine ⟨?_, ?_, ?_⟩
  · intro o ho
    constructor
    · simp [runFiglet, ho]
    · simp [runFigletCalls, ho]
  · intro e he
    refine ⟨by simp [runFigletCalls, he], fun o ho => by simp [runFiglet, he, ho],
      fun e2 he2 => by simp [runFiglet, he, he2]⟩
  · constructor
    · rintro ⟨e, herr⟩
      rcases h1 : exec cmdPath (widthArgs fontPath text width) with e1 | o1
      · rcases h2 : exec cmdPath (noWidthArgs fontPath text) with e2 | o2
        · exact ⟨⟨e1, rfl⟩, ⟨e2, rfl⟩⟩
        · simp [runFiglet, h1, h2] at herr
      · simp [runFiglet, h1] at herr
    · rintro ⟨⟨e1, h1⟩, ⟨e2, h2⟩⟩
      exact ⟨figletFailErr fontPath text width e2, by simp [runFiglet, h1, h2]⟩

/-- Witness for C4: under `execWidthFails` — a tool rejecting exactly the
width-flag invocation — the render still succeeds, after exactly the two
calls, the second without the width flag. -/
theorem c4_runFiglet_retry_witness :
    runFiglet execWidthFails "figlet".toList "p.flf".toList "hi".toList 80 =
        .ok "ART".toList
      ∧ runFigletCalls execWidthFails "figlet".toList "p.flf".toList "hi".toList 80 =
        [widthArgs "p.flf".toList "hi".toList 80, noWidthArgs "p.flf".toList "hi".toList] := by
  have h := (c4_runFiglet_retry execWidthFails "figlet".toList "p.flf".toList "hi".toList
    80).2.1 ("width rejected".toList) (by rfl)
  exact ⟨h.2.1 ("ART".toList) (by rfl), h.1⟩

/-- Claim C3: for every tool behaviour, font list, input text and terminal
width, the preview batch resolves as a single `previewsGenerated` message
(overall success, never an error event) whose list has exactly one entry per
input font; a font whose rendering succeeds gets the truncated output as its
preview, and a font whose rendering fails gets the distinctly prefixed
error placeholder, without aborting the rest of the batch. -/
theorem c3_generatePreviews_spec (exec : ExecF) (cmdPath : GoStr)
    (fonts : List fontMetadata) (inputText : GoStr) (termWidth : Int) :
    ∃ fs, generatePreviews exec cmdPath fonts inputText termWidth = Msg.previewsGenerated fs
      ∧ fs.length = fonts.length
      ∧ ∀ i (hi : i < fonts.length) (hi2 : i < fs.length),
          (∀ o, runFiglet exec cmdPath fonts[i].Path inputText
              (previewRenderWidthOf termWidth) = .ok o →
            fs[i] = { fonts[i] with PreviewRender := truncTotal o } ∧
            truncateString o previewLines = some (truncTotal o))
          ∧ (∀ e, runFiglet exec cmdPath fonts[i].Path inputText
              (previewRenderWidthOf termWidth) = .error e →
            fs[i] = { fonts[i] with PreviewRender := errorPlaceholder e }) := by
  refine ⟨_, rfl, by simp [generatePreviews], ?_⟩
  intro i hi hi2
  constructor
  · intro o ho
    constructor
    · simp only [generatePreviews, List.getElem_map, ho]
    · have hs := truncateString_isSome_of_nonneg (by decide : (0 : Int) ≤ previewLines) o
      rcases Option.isSome_iff_exists.mp hs with ⟨v, hv⟩
      rw [truncTotal, hv]
      rfl
  · intro e he
    simp only [generatePreviews, List.getElem_map, he]

/-- Witness for C3 at a concrete two-font batch under `execByPath`: the batch
reports overall success with two entries; the first carries a real preview,
the second the error placeholder. -/
theorem c3_generatePreviews_witness :
    ∃ fs, generatePreviews execByPath "figlet".toList [fontGood, fontBad]
        "hi".toList 100 = Msg.previewsGenerated fs
      ∧ fs.length = 2
      ∧ fs.get? 0 = some { fontGood with PreviewRender := truncTotal "OK\nART".toList }
      ∧ fs.get? 1 = some { fontBad with
          PreviewRender := errorPlaceholder (figletFailErr "bad.flf".toList "hi".toList
            (previewRenderWidthOf 100) "boom".toList) } := by
  obtain ⟨fs, h1, h2, h3⟩ := c3_generatePreviews_spec execByPath "figlet".toList
    [fontGood, fontBad] "hi".toList 100
  have hb0 : 0 < fs.length := by rw [h2]; decide
  have hb1 : 1 < fs.length := by rw [h2]; decide
  have e0 := ((h3 0 (by decide) hb0).1 ("OK\nART".toList) (by rfl)).1
  have e1 := (h3 1 (by decide) hb1).2
    (figletFailErr "bad.flf".toList "hi".toList (previewRenderWidthOf 100) "boom".toList)
    (by rfl)
  refine ⟨fs, h1, h2, ?_, ?_⟩
  · rw [List.get?_eq_getElem? _ _, List.getElem?_eq_getElem hb0, e0]
    rfl
  · rw [List.get?_eq_getElem? _ _, List.getElem?_eq_getElem hb1, e1]
    rfl

/-- Claim C1 (code bug): the spec's stale-result guard requires that a
`previewsGenerated` completion arriving in any state other than
LoadingPreviews leave the session unchanged; the `case previewsGeneratedMsg`
arm of `model.Update` is not guarded by the current state, so here — in the
InputText state, after the user backed out — it overwrites the font list and
transitions to SelectFontWithPreview. -/
theorem c1_stale_previews_overwrite :
    (update widgetsId baseModel (Msg.previewsGenerated [font2])).1.state =
        appState.stateSelectFontWithPreview
      ∧ (update widgetsId baseModel (Msg.previewsGenerated [font2])).1.fonts = [font2]
      ∧ baseModel.state ≠ appState.stateLoadingPreviews
      ∧ baseModel.fonts ≠ [font2] := by
  decide

/-- Claim C7 (code bug): the claim (and the program's own Error-state footer,
"Press any key to quit.") says any key press terminates the process, but the
handler quits only on `q`, `esc` or `enter`: the key `a` is ignored — model
unchanged and no quit command — while `q` does quit. -/
theorem c7_error_key_ignored :
    update widgetsId errorModel (Msg.key "a") = (errorModel, [])
      ∧ update widgetsId errorModel (Msg.key "q") = (errorModel, [Cmd.quit]) := by
  decide

/-- Claim C8 (corrected): entering StatusMessage through a save success
schedules the fixed 2-second timeout; in StatusMessage, the timeout event or
an Enter or Escape key press transitions the session to SelectFont and
clears the status message.  (The claim's "any key press" is too strong —
other keys are ignored, see the counterexample.) -/
theorem c8_status_amended (w : Widgets) (m : Model) (path : GoStr) :
    (update w m (Msg.fileSaved path) =
        ({ m with statusMessage := savedPrompt path, state := .stateShowStatusMessage },
          [Cmd.tick 2 Msg.statusTimeout]))
    ∧ (m.state = .stateShowStatusMessage →
        update w m Msg.statusTimeout =
          ({ m with statusMessage := [], state := .stateSelectFontWithPreview }, []))
    ∧ (∀ k, m.state = .stateShowStatusMessage → (k = "enter" ∨ k = "esc") →
        update w m (Msg.key k) =
          ({ m with statusMessage := [], state := .stateSelectFontWithPreview }, [])) := by
  refine ⟨rfl, fun _ => rfl, ?_⟩
  intro k hm hk
  rcases hk with rfl | rfl <;> simp [update, hm]

/-- Witness for C8 at a concrete StatusMessage session: the timeout event and
the Escape key each move it to SelectFont with the status cleared. -/
theorem c8_status_amended_witness :
    update widgetsId statusModel Msg.statusTimeout =
        ({ statusModel with statusMessage := [], state := .stateSelectFontWithPreview }, [])
      ∧ update widgetsId statusModel (Msg.key "esc") =
        ({ statusModel with statusMessage := [], state := .stateSelectFontWithPreview }, []) := by
  have h := c8_status_amended widgetsId statusModel ("out.txt".toList)
  exact ⟨h.2.1 rfl, h.2.2 "esc" rfl (Or.inr rfl)⟩

/-- Claim C8 counterexample: in the StatusMessage state the key `a` neither
transitions to SelectFont nor clears the (nonempty) status message, refuting
the claim's "any key press". -/
theorem c8_status_counterexample :
    update widgetsId statusModel (Msg.key "a") = (statusModel, [])
      ∧ statusModel.state = appState.stateShowStatusMessage
      ∧ statusModel.statusMessage ≠ [] := by
  decide

/-- Claim C9: in every session state and for every widget behaviour, the
dedicated quit keystroke ctrl+c makes the controller quit immediately with
the model unchanged — the check precedes every state-specific key handler,
including the states whose keystrokes are otherwise consumed by the
text-input or list widget. -/
theorem c9_global_quit (w : Widgets) (m : Model) :
    update w m (Msg.key "ctrl+c") = (m, [Cmd.quit]) := rfl

/-- Claim C10: in the InputText state, confirming with Enter first trims the
entered value; when the trimmed value is empty the screen stays InputText
and no command — in particular no preview task — is issued; otherwise the
stored `inputText` is the trimmed value (not the raw entered text) and the
preview batch is dispatched with it. -/
theorem c10_input_enter_trim (w : Widgets) (m : Model) (h : m.state = .stateInputText) :
    (trimSpace m.textInputValue = [] →
      (update w m (Msg.key "enter")).1.state = .stateInputText
        ∧ (update w m (Msg.key "enter")).1.inputText = []
        ∧ (update w m (Msg.key "enter")).2 = [])
    ∧ (trimSpace m.textInputValue ≠ [] →
      update w m (Msg.key "enter") =
        ({ m with
            inputText := trimSpace m.textInputValue
            state := .stateLoadingPreviews
            textInputFocused := false },
          [Cmd.spinnerTick,
           Cmd.generatePreviews m.fonts (trimSpace m.textInputValue) m.termWidth])) := by
  constructor
  · intro ht
    simp [update, h, ht]
  · intro ht
    simp [update, h, ht]

/-- Witness for C10: a whitespace-only entry leaves the screen in InputText
with no command; `"  hi  "` is stored trimmed as `"hi"` and dispatches the
preview batch. -/
theorem c10_input_enter_trim_witness :
    ((update widgetsId inputModelBlank (Msg.key "enter")).1.state = appState.stateInputText
      ∧ (update widgetsId inputModelBlank (Msg.key "enter")).1.inputText = []
      ∧ (update widgetsId inputModelBlank (Msg.key "enter")).2 = [])
    ∧ update widgetsId inputModelFilled (Msg.key "enter") =
        ({ inputModelFilled with
            inputText := "hi".toList
            state := .stateLoadingPreviews
            textInputFocused := false },
          [Cmd.spinnerTick,
           Cmd.generatePreviews inputModelFilled.fonts "hi".toList
             inputModelFilled.termWidth]) := by
  constructor
  · exact (c10_input_enter_trim widgetsId inputModelBlank rfl).1 (by decide)
  · have h := (c10_input_enter_trim widgetsId inputModelFilled rfl).2 (by decide)
    rw [show trimSpace inputModelFilled.textInputValue = "hi".toList from by decide] at h
    exact h

/-! Section: Font discovery (C2) -/

theorem asciiLower_eq_dot {c : Char} (h : asciiLower c = '.') : c = '.' := by
  unfold asciiLower at h
  split at h <;> first | exact h | exact absurd h (by decide)

theorem ne_dot_of_asciiLower_f {c : Char} (h : asciiLower c = 'f') : c ≠ '.' := by
  rintro rfl
  exact absurd h (by decide)

theorem ne_dot_of_asciiLower_l {c : Char} (h : asciiLower c = 'l') : c ≠ '.' := by
  rintro rfl
  exact absurd h (by decide)

theorem fontFile_decomp {b : GoStr} (h : hasSuffixGo (goToLower b) (".flf".toList) = true) :
    ∃ u c2 c3 c4, b = u ++ ['.', c2, c3, c4] ∧ c2 ≠ '.' ∧ c3 ≠ '.' ∧ c4 ≠ '.' := by
  rw [hasSuffixGo, List.isSuffixOf_iff_suffix] at h
  obtain ⟨t, ht⟩ := h
  have hlen : b.length = t.length + 4 := by
    have hc := congrArg List.length ht
    simp [goToLower] at hc
    omega
  have hsplit : b.take (b.length - 4) ++ b.drop (b.length - 4) = b :=
    List.take_append_drop _ b
  have hdlen : (b.drop (b.length - 4)).length = 4 := by
    rw [List.length_drop]
    omega
  have hmap : (b.take (b.length - 4)).map asciiLower ++
      (b.drop (b.length - 4)).map asciiLower = t ++ (".flf".toList) := by
    rw [← List.map_append, hsplit]
    exact ht.symm
  have htlen : ((b.take (b.length - 4)).map asciiLower).length = t.length := by
    rw [List.length_map, List.length_take]
    omega
  have hdrop_map : (b.drop (b.length - 4)).map asciiLower = ".flf".toList :=
    List.append_inj_right hmap htlen
  obtain ⟨x1, x2, x3, x4, hx⟩ :
      ∃ x1 x2 x3 x4, b.drop (b.length - 4) = [x1, x2, x3, x4] := by
    rcases e : b.drop (b.length - 4) with _ | ⟨x1, _ | ⟨x2, _ | ⟨x3, _ | ⟨x4, rest⟩⟩⟩⟩ <;>
        rw [e] at hdlen <;> simp at hdlen
    subst hdlen
    exact ⟨x1, x2, x3, x4, rfl⟩
  rw [hx] at hdrop_map
  simp [List.map_cons] at hdrop_map
  obtain ⟨h1, h2, h3, h4⟩ := hdrop_map
  refine ⟨b.take (b.length - 4), x2, x3, x4, ?_, ne_dot_of_asciiLower_f h2,
    ne_dot_of_asciiLower_l h3, ne_dot_of_asciiLower_f h4⟩
  rw [← asciiLower_eq_dot h1, ← hx, hsplit]

theorem filepathExt_of_decomp {u : GoStr} {c2 c3 c4 : Char}
    (h2 : c2 ≠ '.') (h3 : c3 ≠ '.') (h4 : c4 ≠ '.') :
    filepathExt (u ++ ['.', c2, c3, c4]) = ['.', c2, c3, c4] := by
  have hb2 : (c2 != '.') = true := bne_iff_ne.mpr h2
  have hb3 : (c3 != '.') = true := bne_iff_ne.mpr h3
  have hb4 : (c4 != '.') = true := bne_iff_ne.mpr h4
  have hmem : '.' ∈ u ++ ['.', c2, c3, c4] := by simp
  rw [filepathExt, if_pos (List.elem_eq_true_of_mem hmem)]
  simp [List.reverse_append, List.takeWhile_cons, hb2, hb3, hb4]

theorem trimSuffix_of_decomp (u : GoStr) (c2 c3 c4 : Char) :
    trimSuffix (u ++ ['.', c2, c3, c4]) ['.', c2, c3, c4] = u := by
  rw [trimSuffix, if_pos]
  · have hl : (u ++ ['.', c2, c3, c4]).length - (['.', c2, c3, c4] : GoStr).length =
        u.length := by
      simp
    rw [hl, List.take_left' rfl]
  · simp only [List.isSuffixOf_iff_suffix]
    exact ⟨u, rfl⟩

theorem fontFile_name_eq {b : GoStr} (h : hasSuffixGo (goToLower b) (".flf".toList) = true) :
    trimSuffix b (filepathExt b) = b.take (b.length - 4) := by
  obtain ⟨u, c2, c3, c4, rfl, h2, h3, h4⟩ := fontFile_decomp h
  rw [filepathExt_of_decomp h2 h3 h4, trimSuffix_of_decomp]
  have hl : (u ++ ['.', c2, c3, c4]).length - 4 = u.length := by simp
  rw [hl, List.take_left' rfl]

theorem walkDirOrder_perm (files : List GoStr) : (walkDirOrder files).Perm files :=
  List.perm_insertionSort _ files

theorem walkDirOrder_eq_of_perm {a b : List GoStr} (h : a.Perm b) :
    walkDirOrder a = walkDirOrder b := by
  haveI h1 : IsTotal GoStr (fun p q : GoStr => p ≤ q) := ⟨fun x y => le_total x y⟩
  haveI h2 : IsTrans GoStr (fun p q : GoStr => p ≤ q) := ⟨fun x y z => le_trans⟩
  haveI h3 : IsAntisymm GoStr (fun p q : GoStr => p ≤ q) := ⟨fun x y => le_antisymm⟩
  exact List.eq_of_perm_of_sorted
    ((List.perm_insertionSort _ a).trans (h.trans (List.perm_insertionSort _ b).symm))
    (List.sorted_insertionSort _ a) (List.sorted_insertionSort _ b)

/-- Claim C2: for every set of discovered font files with at least one match,
`findFigletFonts` succeeds and returns exactly the files whose base name
ends case-insensitively in `.flf` (as a permutation of the filtered input);
each entry's name is the base name with the four-character matched extension
removed (and its preview empty); the entries are sorted ascending by name;
and the result is the same for every permutation of the input — the order
the filesystem returned the files does not matter. -/
theorem c2_findFigletFonts_spec (files : List GoStr)
    (hex : ∃ p ∈ files, isFontFile p = true) :
    ∃ fonts, findFigletFonts files = .ok fonts
      ∧ (fonts.map fontMetadata.Path).Perm (files.filter isFontFile)
      ∧ (∀ fm ∈ fonts, isFontFile fm.Path = true
          ∧ fm.Name = (baseName fm.Path).take ((baseName fm.Path).length - 4)
          ∧ fm.PreviewRender = [])
      ∧ List.Sorted nameLe fonts
      ∧ (∀ files2, files2.Perm files → findFigletFonts files2 = findFigletFonts files) := by
  obtain ⟨p0, hp0, hp0f⟩ := hex
  have hLperm : ((walkDirOrder files).filter isFontFile).Perm (files.filter isFontFile) :=
    (walkDirOrder_perm files).filter isFontFile
  have hmem0 : p0 ∈ files.filter isFontFile := List.mem_filter.mpr ⟨hp0, hp0f⟩
  have hLne : ¬((walkDirOrder files).filter isFontFile).isEmpty = true := by
    intro hempty
    rw [List.isEmpty_iff] at hempty
    rw [hempty] at hLperm
    rw [hLperm.symm.eq_nil] at hmem0
    simp at hmem0
  refine ⟨List.insertionSort nameLe (((walkDirOrder files).filter isFontFile).map (fun p =>
      ({ Name := trimSuffix (baseName p) (filepathExt (baseName p)), Path := p,
         PreviewRender := [] } : fontMetadata))), ?_, ?_, ?_, ?_, ?_⟩
  · simp only [findFigletFonts]
    rw [if_neg hLne]
  · have hp1 := (List.perm_insertionSort nameLe
      (((walkDirOrder files).filter isFontFile).map (fun p =>
        ({ Name := trimSuffix (baseName p) (filepathExt (baseName p)), Path := p,
           PreviewRender := []} : fontMetadata)))).map fontMetadata.Path
    rw [List.map_map] at hp1
    have hp2 : List.map (fontMetadata.Path ∘ fun p =>
        ({ Name := trimSuffix (baseName p) (filepathExt (baseName p)), Path := p,
           PreviewRender := [] } : fontMetadata)) ((walkDirOrder files).filter isFontFile) =
        (walkDirOrder files).filter isFontFile := List.map_id'' (fun p => rfl) _
    rw [hp2] at hp1
    exact hp1.trans hLperm
  · intro fm hfm
    have hfm2 := (List.perm_insertionSort nameLe _).mem_iff.mp hfm
    obtain ⟨p, hpL, rfl⟩ := List.mem_map.mp hfm2
    have hpf : isFontFile p = true := (List.mem_filter.mp hpL).2
    exact ⟨hpf, fontFile_name_eq hpf, rfl⟩
  · exact List.sorted_insertionSort nameLe _
  · intro files2 hperm
    simp only [findFigletFonts, walkDirOrder_eq_of_perm hperm]

/-- Witness for C2 at the spec's example — `alpha.flf`, `Zeta.FLF`,
`notafont.txt` yields exactly `[Zeta, alpha]` in that order — together with
the general conclusions instantiated there. -/
theorem c2_findFigletFonts_witness :
    findFigletFonts exampleFiles =
        .ok [{ Name := "Zeta".toList, Path := "/f/Zeta.FLF".toList, PreviewRender := [] },
             { Name := "alpha".toList, Path := "/f/alpha.flf".toList, PreviewRender := [] }]
      ∧ ∃ fonts, findFigletFonts exampleFiles = .ok fonts
        ∧ (fonts.map fontMetadata.Path).Perm (exampleFiles.filter isFontFile)
        ∧ (∀ fm ∈ fonts, isFontFile fm.Path = true
            ∧ fm.Name = (baseName fm.Path).take ((baseName fm.Path).length - 4)
            ∧ fm.PreviewRender = [])
        ∧ List.Sorted nameLe fonts
        ∧ (∀ files2, files2.Perm exampleFiles →
            findFigletFonts files2 = findFigletFonts exampleFiles) :=
  ⟨by rfl, c2_findFigletFonts_spec exampleFiles (by decide)⟩
